import Mathlib

/-!
Shallow embedding of the gwsurrogate evaluation engine (`gwsurrogate/surrogate.py`):
the single-mode surrogate evaluator (`EvaluateSingleModeSurrogate`) and the
multi-mode composer (`EvaluateSurrogate`), together with theorems checking the
natural-language specification against this embedding.

Machine floats are modelled by `ℚ`; numpy arrays by `List ℚ`; complex arrays by
lists of a rational-complex pair type `Cq`.  Python exceptions (`raise ...`)
are modelled by `Except String`; a function that can raise returns
`Except String α`.  External collaborators that the repository imports from
modules outside the evaluation engine (scipy splines, `gwtools`, `harmonics.sYlm`,
numpy `exp`, the `surrogateIO` parameter conversion) are modelled as function
fields of the model structures, so that every evaluation-engine code path stays
executable on concrete instances.
-/

/-- Complex numbers with rational parts: the model of numpy complex values. -/
structure Cq where
  re : ℚ
  im : ℚ
deriving DecidableEq, Repr

def Cq.add (x y : Cq) : Cq := ⟨x.re + y.re, x.im + y.im⟩

instance : Add Cq := ⟨Cq.add⟩

/-- Complex multiplication. -/
def Cq.mul (x y : Cq) : Cq := ⟨x.re * y.re - x.im * y.im, x.re * y.im + x.im * y.re⟩

instance : Mul Cq := ⟨Cq.mul⟩

instance : Zero Cq := ⟨⟨0, 0⟩⟩

/-- Scaling of a complex value by a real (rational) scalar. -/
def Cq.smulQ (a : ℚ) (z : Cq) : Cq := ⟨a * z.re, a * z.im⟩

deriving instance DecidableEq for Except

/-- Dot product of a complex row with a complex vector (`np.dot` on one row). -/
def dotC (row v : List Cq) : Cq := (List.zipWith (· * ·) row v).foldr (· + ·) 0

/-- Matrix–vector product for a complex matrix given as a list of rows. -/
def matVecC (B : List (List Cq)) (v : List Cq) : List Cq := B.map (fun row => dotC row v)

/-- Dot product of a real row with a real vector. -/
def dotR (row v : List ℚ) : ℚ := (List.zipWith (· * ·) row v).foldr (· + ·) 0

/-- Matrix–vector product for a real matrix given as a list of rows. -/
def matVecR (B : List (List ℚ)) (v : List ℚ) : List ℚ := B.map (fun row => dotR row v)

/-- Number of columns of a matrix stored as a list of rows (`A.shape[1]`). -/
def ncols (B : List (List ℚ)) : ℕ := (B.headD []).length

/-- Modelled from the spec: physical constant `Msun` supplied by the external
`const_mks` module (out of scope, §1/§6); an arbitrary positive rational stands
in for its floating-point value. -/
def Msun : ℚ := 2

/-- Modelled from the spec: `Mpcinm` from the external `const_mks` module. -/
def Mpcinm : ℚ := 3

/-- Modelled from the spec: Newton constant `G` from the external `const_mks` module. -/
def Gmks : ℚ := 5

/-- Modelled from the spec: speed of light `c` from the external `const_mks` module. -/
def cmks : ℚ := 7

/-- Modelled from the spec: `Msuninsec` from the external `const_mks` module. -/
def Msuninsec : ℚ := 11

/-- The data contract of a single-mode surrogate model (spec §3), as consumed by
`EvaluateSingleModeSurrogate` in `surrogate.py`.  Fields that the evaluation
engine reads from external collaborator modules are modelled as functions:
`reBspline`/`imBspline`/`B1spline`/`B2spline` are the cached scipy spline
interpolants built at construction (`splrep`, read back with `splev`),
`amp_fit_func`/`phase_fit_func`/`norm_fit_func` are the fit functions looked up
from `parametric_funcs.function_dict`, `get_surr_params` is the parameterization
conversion from `surrogateIO`, `cis` models `np.exp(1j*·)`, `instantFreq` models
`gwtools.find_instant_freq`, and `amp_phase_ext`/`modify_phase_ext` model
`gwtools.amp_phase`/`gwtools.modify_phase`. -/
structure EvaluateSingleModeSurrogate where
  surrogate_mode_type : String
  surrogate_units : String
  times : List ℚ
  dim_rb : ℕ
  B : List (List Cq)
  B_1 : List (List ℚ)
  B_2 : List (List ℚ)
  reBspline : ℕ → ℚ → ℚ
  imBspline : ℕ → ℚ → ℚ
  B1spline : ℕ → ℚ → ℚ
  B2spline : ℕ → ℚ → ℚ
  fitparams_amp : List (List ℚ)
  fitparams_phase : List (List ℚ)
  fitparams_norm : List ℚ
  norms : Bool
  fit_min : ℚ
  fit_max : ℚ
  affine_map : String
  amp_fit_func : List ℚ → ℚ → ℚ
  phase_fit_func : List ℚ → ℚ → ℚ
  norm_fit_func : List ℚ → ℚ → ℚ
  get_surr_params : ℚ → ℚ
  cis : ℚ → Cq
  instantFreq : List ℚ → List ℚ → List ℚ → ℚ
  amp_phase_ext : List ℚ → List ℚ → List ℚ × List ℚ
  modify_phase_ext : List ℚ → List ℚ → ℚ → List ℚ × List ℚ

namespace EvaluateSingleModeSurrogate

/-- `time()` (default units): the native time grid the surrogate was built on. -/
def time (sur : EvaluateSingleModeSurrogate) : List ℚ := sur.times

/-- `_affine_mapper_checker`: map the parameter `x` to the fit's normalized
domain according to the `affine_map` tag, raising on an unknown tag.  The
returned `Bool` records whether the out-of-interval warning was printed
(`x < x_min or x > x_max`, a non-fatal side effect in the source). -/
def affine_mapper_checker (sur : EvaluateSingleModeSurrogate) (x : ℚ) :
    Except String (ℚ × Bool) :=
  let warned : Bool := decide (x < sur.fit_min) || decide (x > sur.fit_max)
  if sur.affine_map = "minus1_to_1" then
    .ok (2 * (x - sur.fit_min) / (sur.fit_max - sur.fit_min) - 1, warned)
  else if sur.affine_map = "zero_to_1" then
    .ok ((x - sur.fit_min) / (sur.fit_max - sur.fit_min), warned)
  else if sur.affine_map = "none" then
    .ok (x, warned)
  else
    .error "unknown affine map"

/-- `_norm_eval` (already affine-mapped): the norm fit at `x_0`, or `1` when the
model carries no norm data. -/
def norm_eval (sur : EvaluateSingleModeSurrogate) (x0 : ℚ) : ℚ :=
  if sur.norms then sur.norm_fit_func sur.fitparams_norm x0 else 1

/-- `_amp_eval`: one amplitude fit evaluation per row of `fitparams_amp`. -/
def amp_eval (sur : EvaluateSingleModeSurrogate) (x0 : ℚ) : List ℚ :=
  sur.fitparams_amp.map (fun row => sur.amp_fit_func row x0)

/-- `_phase_eval`: one phase fit evaluation per row of `fitparams_phase`. -/
def phase_eval (sur : EvaluateSingleModeSurrogate) (x0 : ℚ) : List ℚ :=
  sur.fitparams_phase.map (fun row => sur.phase_fit_func row x0)

/-- `resample_B`: the empirical interpolant operator `B` re-evaluated at the
input samples off the cached real/imaginary column splines. -/
def resample_B (sur : EvaluateSingleModeSurrogate) (samples : List ℚ) :
    List (List Cq) :=
  samples.map (fun s => (List.range sur.dim_rb).map
    (fun j => ⟨sur.reBspline j s, sur.imBspline j s⟩))

/-- The `B_1` matrix resampled at the input samples off its cached column splines
(the inline `np.array([splev(samples, self.B1_spline_params[jj]) ...]).T`). -/
def resample_B1 (sur : EvaluateSingleModeSurrogate) (samples : List ℚ) :
    List (List ℚ) :=
  samples.map (fun s => (List.range (ncols sur.B_1)).map (fun j => sur.B1spline j s))

/-- The `B_2` matrix resampled at the input samples off its cached column splines. -/
def resample_B2 (sur : EvaluateSingleModeSurrogate) (samples : List ℚ) :
    List (List ℚ) :=
  samples.map (fun s => (List.range (ncols sur.B_2)).map (fun j => sur.B2spline j s))

/-- `_h_sur`: evaluate the bare dimensionless surrogate at parameter `x`,
optionally at custom (dimensionless) samples, returning `(h_plus, h_cross)`. -/
def h_sur (sur : EvaluateSingleModeSurrogate) (x : ℚ) (samples : Option (List ℚ)) :
    Except String (List ℚ × List ℚ) :=
  match affine_mapper_checker sur x with
  | .error e => .error e
  | .ok (x0, _) =>
    let amp_v := amp_eval sur x0
    let phase_v := phase_eval sur x0
    let nrm := norm_eval sur x0
    if sur.surrogate_mode_type = "waveform_basis" then
      let hEIM := List.zipWith (fun a p => Cq.smulQ a (sur.cis p)) amp_v phase_v
      let surrogate :=
        match samples with
        | none => matVecC sur.B hEIM
        | some s => matVecC (resample_B sur s) hEIM
      let surrogate := surrogate.map (Cq.smulQ nrm)
      .ok (surrogate.map Cq.re, surrogate.map Cq.im)
    else if sur.surrogate_mode_type = "amp_phase_basis" then
      let sur_A :=
        match samples with
        | none => matVecR sur.B_1 amp_v
        | some s => matVecR (resample_B1 sur s) amp_v
      let sur_P :=
        match samples with
        | none => matVecR sur.B_2 phase_v
        | some s => matVecR (resample_B2 sur s) phase_v
      let surrogate := List.zipWith (fun a p => Cq.smulQ a (sur.cis p)) sur_A sur_P
      let surrogate := surrogate.map (Cq.smulQ nrm)
      .ok (surrogate.map Cq.re, surrogate.map Cq.im)
    else
      .error "invalid surrogate type"

/-- `find_instant_freq`: instantaneous frequency at the start of the waveform
(computed by the external `gwtools.find_instant_freq`); when `f_low` is given
and the start frequency exceeds it, a `Warning` exception is raised. -/
def find_instant_freq (sur : EvaluateSingleModeSurrogate)
    (hp hc t : List ℚ) (f_low : Option ℚ) : Except String (Option ℚ) :=
  let f_instant := sur.instantFreq hp hc t
  match f_low with
  | none => .ok (some f_instant)
  | some fl =>
    if f_instant > fl then .error "starting frequency is above f_low"
    else .ok none

/-- First index of the maximum of a list (`np.argmax`). -/
def argmaxList (xs : List ℚ) : ℕ :=
  (xs.enum).foldl (fun best p => if p.2 > xs.getD best 0 then p.1 else best) 0

/-- `phi_merger`: phase of the mode at the discrete peak of its amplitude. -/
def phi_merger (sur : EvaluateSingleModeSurrogate) (hp hc : List ℚ) : ℚ :=
  let ap := sur.amp_phase_ext hp hc
  ap.2.getD (argmaxList ap.1) 0

/-- `adjust_merger_phase`: rotate the mode by a constant phase so that the phase
at the amplitude peak equals `phiref`. -/
def adjust_merger_phase (sur : EvaluateSingleModeSurrogate) (hp hc : List ℚ)
    (phiref : ℚ) : List ℚ × List ℚ :=
  sur.modify_phase_ext hp hc (phiref - phi_merger sur hp hc)

/-- The straight-line computation of `__call__` between its argument checks and
its final `f_low` frequency check: parameter conversion, unit scalings,
evaluation times, bare surrogate evaluation, optional merger-phase adjustment,
and amplitude scaling. -/
def call_body (sur : EvaluateSingleModeSurrogate) (q : ℚ)
    (M dist phi_ref : Option ℚ) (samples : Option (List ℚ))
    (samples_units : String) : Except String (List ℚ × List ℚ × List ℚ) :=
  let x := sur.get_surr_params q
  let amp0 : ℚ :=
    match M, dist with
    | some Mv, some dv => Mv * Msun / (dv * Mpcinm) * (Gmks / cmks ^ 2)
    | _, _ => 1
  let t_scale : ℚ :=
    match M, dist with
    | some Mv, some _ => Msuninsec * Mv
    | _, _ => 1
  let t :=
    match samples with
    | some s => s
    | none => time sur
  let t := if samples_units = "dimensionless" then t.map (fun v => t_scale * v) else t
  let samples2 : Option (List ℚ) :=
    if samples_units = "mks" then samples.map (fun l => l.map (fun v => v / t_scale))
    else samples
  match h_sur sur x samples2 with
  | .error e => .error e
  | .ok (hp0, hc0) =>
    let hphc :=
      match phi_ref with
      | some pr => adjust_merger_phase sur hp0 hc0 pr
      | none => (hp0, hc0)
    let hp := hphc.1.map (fun v => amp0 * v)
    let hc := hphc.2.map (fun v => amp0 * v)
    .ok (t, hp, hc)

/-- `__call__`: the full single-mode evaluation, returning `(t, h_plus, h_cross)`. -/
def call (sur : EvaluateSingleModeSurrogate) (q : ℚ)
    (M dist phi_ref f_low : Option ℚ) (samples : Option (List ℚ))
    (samples_units : String) : Except String (List ℚ × List ℚ × List ℚ) :=
  if sur.surrogate_units ≠ "dimensionless" then
    .error "surrogate units is not supported"
  else if samples_units ≠ "dimensionless" ∧ samples_units ≠ "mks" then
    .error "samples_units is not supported"
  else
    match call_body sur q M dist phi_ref samples samples_units with
    | .error e => .error e
    | .ok (t, hp, hc) =>
      match f_low with
      | none => .ok (t, hp, hc)
      | some _ =>
        match find_instant_freq sur hp hc t f_low with
        | .error e => .error e
        | .ok _ => .ok (t, hp, hc)

end EvaluateSingleModeSurrogate

/-- The `ell` argument of `EvaluateSurrogate.__call__` is dynamically typed in
the source: either a single integer bound `L_max` or a list parallel to `m`. -/
inductive EllArg where
  | num : ℤ → EllArg
  | lst : List ℤ → EllArg
deriving DecidableEq, Repr

/-- Result shape of a multi-mode evaluation: the summed `(t, h_plus, h_cross)`
triple for `mode_sum=True`, or the labeled per-mode column matrices for
`mode_sum=False`. -/
inductive CallOutput where
  | summed : List ℚ → List ℚ → List ℚ → CallOutput
  | perMode : List (ℤ × ℤ) → List ℚ → List (List ℚ) → List (List ℚ) → CallOutput
deriving DecidableEq, Repr

/-- The multi-mode surrogate model (`EvaluateSurrogate`): a dictionary of
single-mode surrogates keyed by `(ell, m)` plus the shared time grid
(`time_all_modes`, taken from one of the modes, assumed common).  `sYlm_ext`
models the external `harmonics.sYlm`, `cis` models `np.exp(1j*·)` used for the
z-rotation, and `splineFit` models the `splrep`/`splev` pair used by
`h_sphere_builder` to cache per-mode interpolants. -/
structure EvaluateSurrogate where
  single_modes : List ((ℤ × ℤ) × EvaluateSingleModeSurrogate)
  time_all_modes : List ℚ
  sYlm_ext : ℤ → ℤ → ℤ → ℚ → ℚ → Cq
  cis : ℚ → Cq
  splineFit : List ℚ → List ℚ → ℚ → ℚ

/-- Elementwise numpy addition of two one-dimensional arrays, with numpy's
length-1 broadcasting; incompatible shapes raise. -/
def npAdd (a b : List ℚ) : Except String (List ℚ) :=
  if a.length = b.length then .ok (List.zipWith (· + ·) a b)
  else if b.length = 1 then .ok (a.map (fun v => v + b.headD 0))
  else if a.length = 1 then .ok (b.map (fun v => a.headD 0 + v))
  else .error "operands could not be broadcast together"

/-- Numpy assignment of a vector into a column of length `n`
(`hp_full[:,ii] = hp_mode[:]`), with length-1 broadcasting; other length
mismatches raise. -/
def npAssignCol (n : ℕ) (v : List ℚ) : Except String (List ℚ) :=
  if v.length = n then .ok v
  else if v.length = 1 then .ok (List.replicate n (v.headD 0))
  else .error "could not broadcast input array"

/-- Total companion of `npAssignCol`: the normalized length-`n` column it
produces whenever it succeeds (arbitrary on the failing shapes). -/
def colNorm (n : ℕ) (v : List ℚ) : List ℚ :=
  if v.length = n then v else List.replicate n (v.headD 0)

namespace EvaluateSurrogate

/-- Dictionary lookup `self.single_modes[mode_key]`. -/
def lookupMode (mm : EvaluateSurrogate) (k : ℤ × ℤ) :
    Option EvaluateSingleModeSurrogate :=
  (mm.single_modes.find? (fun p => p.1 = k)).map Prod.snd

/-- `_extend_mode_list_minus_m` loop: walk a copy of the input list, appending
`(ell, -m)` for each `m > 0` and raising on any `m < 0` in the input. -/
def extend_go (acc : List (ℤ × ℤ)) : List (ℤ × ℤ) → Except String (List (ℤ × ℤ))
  | [] => .ok acc
  | (l, m) :: rest =>
    if m > 0 then extend_go (acc ++ [(l, -m)]) rest
    else if m < 0 then .error "your list already has negative modes!"
    else extend_go acc rest

/-- `_extend_mode_list_minus_m`: from a list of `(ell, m)` pairs, the list
extended with the corresponding `m < 0` modes. -/
def extend_mode_list_minus_m (mode_list : List (ℤ × ℤ)) :
    Except String (List (ℤ × ℤ)) :=
  extend_go mode_list mode_list

/-- `all_model_modes`: the mode keys of the model, optionally extended with
their negative-`m` mirrors. -/
def all_model_modes (mm : EvaluateSurrogate) (minus_m : Bool) :
    Except String (List (ℤ × ℤ)) :=
  let model_modes := mm.single_modes.map Prod.fst
  if minus_m then extend_mode_list_minus_m model_modes else .ok model_modes

/-- `generate_mode_eval_list`: the ordered list of `(ell, m)` modes a multi-mode
evaluation will loop over. -/
def generate_mode_eval_list (mm : EvaluateSurrogate) (ell : Option EllArg)
    (m : Option (List ℤ)) (minus_m : Bool) : Except String (List (ℤ × ℤ)) :=
  let base : Except String (List (ℤ × ℤ)) :=
    match ell, m with
    | none, none => all_model_modes mm false
    | some (.num LMax), none =>
      .ok ((List.range' 2 ((LMax - 1).toNat)).flatMap
        (fun L => (List.range (L + 1)).map (fun emm => ((L : ℤ), (emm : ℤ)))))
    | some (.lst _), none => .error "TypeError"
    | some (.lst el), some ml => .ok (el.flatMap (fun x => ml.map (fun y => (x, y))))
    | none, some _ => .error "TypeError"
    | some (.num _), some _ => .error "TypeError"
  match base with
  | .error e => .error e
  | .ok modes_to_eval =>
    if minus_m then extend_mode_list_minus_m modes_to_eval else .ok modes_to_eval

/-- The lexicographic mode order used by `sort_mode_list` (`itemgetter(0,1)`). -/
def modeLe (p q : ℤ × ℤ) : Prop := p.1 < q.1 ∨ (p.1 = q.1 ∧ p.2 ≤ q.2)

instance : DecidableRel modeLe := fun p q =>
  inferInstanceAs (Decidable (p.1 < q.1 ∨ (p.1 = q.1 ∧ p.2 ≤ q.2)))

/-- `sort_mode_list`: stable sort of the modes ascending by `(ell, m)`. -/
def sort_mode_list (mode_list : List (ℤ × ℤ)) : List (ℤ × ℤ) :=
  List.insertionSort modeLe mode_list

/-- `_allocate_output_array` row count: length of the custom samples if given,
else of the shared native grid. -/
def alloc_len (mm : EvaluateSurrogate) (samples : Option (List ℚ)) : ℕ :=
  match samples with
  | some s => s.length
  | none => mm.time_all_modes.length

/-- `_generate_minus_m_mode`: derive the `(ell, -m)` waveform from the `m > 0`
one via `h(l,-m) = (-1)^l h(l,m)^*` (Kidder 2008). -/
def generate_minus_m_mode (hp_mode hc_mode : List ℚ) (ell m : ℤ) :
    Except String (List ℚ × List ℚ) :=
  if m ≤ 0 then
    .error "m must be nonnegative. m<0 will be generated for you from the m>0 mode."
  else
    .ok (hp_mode.map (fun v => (-1 : ℚ) ^ ell * v),
         hc_mode.map (fun v => -((-1 : ℚ) ^ ell) * v))

/-- `evaluate_single_mode`: wrapper around the single-mode evaluator guarding
against `m < 0` (those must go through the symmetry path). -/
def evaluate_single_mode (mm : EvaluateSurrogate) (q : ℚ)
    (M dist phi_ref f_low : Option ℚ) (samples : Option (List ℚ))
    (samples_units : String) (ell m : ℤ) :
    Except String (List ℚ × List ℚ × List ℚ) :=
  if m ≥ 0 then
    match lookupMode mm (ell, m) with
    | some sur =>
      EvaluateSingleModeSurrogate.call sur q M dist phi_ref f_low samples samples_units
    | none => .error "KeyError"
  else
    .error "m must be non-negative. evalutate m < 0 modes with evaluate_single_mode_minus"

/-- `evaluate_single_mode_minus`: evaluate an `m < 0` mode from the trained
`m > 0` mode and the negative-mode symmetry relation. -/
def evaluate_single_mode_minus (mm : EvaluateSurrogate) (q : ℚ)
    (M dist phi_ref f_low : Option ℚ) (samples : Option (List ℚ))
    (samples_units : String) (ell m : ℤ) :
    Except String (List ℚ × List ℚ × List ℚ) :=
  if m < 0 then
    match evaluate_single_mode mm q M dist phi_ref f_low samples samples_units ell (-m) with
    | .error e => .error e
    | .ok (t, hp, hc) =>
      match generate_minus_m_mode hp hc ell (-m) with
      | .error e => .error e
      | .ok (hp2, hc2) => .ok (t, hp2, hc2)
  else
    .error "m must be negative."

/-- `evaluate_on_sphere`: if `theta` is given (`phi` defaulting to `0`),
multiply the mode by its spin -2 spherical harmonic value. -/
def evaluate_on_sphere (mm : EvaluateSurrogate) (ell m : ℤ)
    (theta phi : Option ℚ) (hp_mode hc_mode : List ℚ) : List ℚ × List ℚ :=
  match theta with
  | none => (hp_mode, hc_mode)
  | some th =>
    let ph := phi.getD 0
    let y := mm.sYlm_ext (-2) ell m th ph
    let h := List.zipWith (fun p c => y * Cq.mk p c) hp_mode hc_mode
    (h.map Cq.re, h.map Cq.im)

/-- The per-call arguments threaded through the mode loop of `__call__`. -/
structure EvalArgs where
  q : ℚ
  M : Option ℚ
  dist : Option ℚ
  phi_ref : Option ℚ
  f_low : Option ℚ
  samples : Option (List ℚ)
  samples_units : String
  theta : Option ℚ
  phi : Option ℚ

/-- One iteration of the `__call__` mode loop for an available mode: evaluate it
(directly for `m ≥ 0`, via the symmetry path for `m < 0`) and project it on
the sphere. -/
def eval_mode (mm : EvaluateSurrogate) (a : EvalArgs) (lm : ℤ × ℤ) :
    Except String (List ℚ × List ℚ × List ℚ) :=
  match (if lm.2 ≥ 0 then
          evaluate_single_mode mm a.q a.M a.dist a.phi_ref a.f_low a.samples
            a.samples_units lm.1 lm.2
         else
          evaluate_single_mode_minus mm a.q a.M a.dist a.phi_ref a.f_low a.samples
            a.samples_units lm.1 lm.2) with
  | .error e => .error e
  | .ok (t, hp, hc) =>
    let phpc := evaluate_on_sphere mm lm.1 lm.2 a.theta a.phi hp hc
    .ok (t, phpc.1, phpc.2)

/-- The `__call__` mode loop for `mode_sum=True`: accumulate available modes
into one polarization pair, remembering the last evaluated time grid. -/
def call_loop_sum (mm : EvaluateSurrogate) (a : EvalArgs)
    (avail : List (ℤ × ℤ)) :
    List (ℤ × ℤ) → Option (List ℚ) → List ℚ → List ℚ →
    Except String (Option (List ℚ) × List ℚ × List ℚ)
  | [], tacc, hp, hc => .ok (tacc, hp, hc)
  | lm :: rest, tacc, hp, hc =>
    if lm ∈ avail then
      match eval_mode mm a lm with
      | .error e => .error e
      | .ok (t, hpm, hcm) =>
        match npAdd hp hpm with
        | .error e => .error e
        | .ok hp2 =>
          match npAdd hc hcm with
          | .error e => .error e
          | .ok hc2 => call_loop_sum mm a avail rest (some t) hp2 hc2
    else
      call_loop_sum mm a avail rest tacc hp hc

/-- The `__call__` mode loop for `mode_sum=False`: write each available mode
into its column, leaving unmodelled modes as the allocated zeros. -/
def call_loop_cols (mm : EvaluateSurrogate) (a : EvalArgs) (n : ℕ)
    (avail : List (ℤ × ℤ)) :
    List (ℤ × ℤ) → Option (List ℚ) → List (List ℚ) → List (List ℚ) →
    Except String (Option (List ℚ) × List (List ℚ) × List (List ℚ))
  | [], tacc, ch, cc => .ok (tacc, ch, cc)
  | lm :: rest, tacc, ch, cc =>
    if lm ∈ avail then
      match eval_mode mm a lm with
      | .error e => .error e
      | .ok (t, hpm, hcm) =>
        match npAssignCol n hpm with
        | .error e => .error e
        | .ok c1 =>
          match npAssignCol n hcm with
          | .error e => .error e
          | .ok c2 => call_loop_cols mm a n avail rest (some t) (ch ++ [c1]) (cc ++ [c2])
    else
      call_loop_cols mm a n avail rest tacc
        (ch ++ [List.replicate n 0]) (cc ++ [List.replicate n 0])

/-- `EvaluateSurrogate.__call__`: the full multi-mode evaluation. -/
def call (mm : EvaluateSurrogate) (q : ℚ) (M dist theta phi phi_ref f_low : Option ℚ)
    (samples : Option (List ℚ)) (samples_units : String)
    (ell : Option EllArg) (m : Option (List ℤ)) (mode_sum fake_neg_modes : Bool) :
    Except String CallOutput :=
  match phi_ref with
  | some _ => .error "not coded yet"
  | none =>
    match generate_mode_eval_list mm ell m fake_neg_modes with
    | .error e => .error e
    | .ok modes0 =>
      let modes := if mode_sum then modes0 else sort_mode_list modes0
      match all_model_modes mm true with
      | .error e => .error e
      | .ok avail =>
        let n := alloc_len mm samples
        let a : EvalArgs := ⟨q, M, dist, none, f_low, samples, samples_units, theta, phi⟩
        if mode_sum then
          match call_loop_sum mm a avail modes none
              (List.replicate n 0) (List.replicate n 0) with
          | .error e => .error e
          | .ok (some t, hp, hc) => .ok (.summed t hp hc)
          | .ok (none, _, _) => .error "t_mode referenced before assignment"
        else
          match call_loop_cols mm a n avail modes none [] [] with
          | .error e => .error e
          | .ok (some t, ch, cc) => .ok (.perMode modes t ch cc)
          | .ok (none, _, _) => .error "t_mode referenced before assignment"

end EvaluateSurrogate

namespace EvaluateSurrogate

/-- `foldl` accumulation of columns by elementwise addition (the shape taken by
the `mode_sum=True` loop once every addition is known to be well-shaped). -/
def addCols (acc : List ℚ) (cols : List (List ℚ)) : List ℚ :=
  cols.foldl (fun v c => List.zipWith (· + ·) v c) acc

/-- Element-wise sum over a list of columns, evaluated on the first `n` entries. -/
def sum_columns (n : ℕ) (cols : List (List ℚ)) : List ℚ :=
  (List.range n).map (fun k => (cols.map (fun c => c.getD k 0)).sum)

/-- The `h_plus` column the `mode_sum=False` loop produces for one requested
mode: the (length-normalized) projected waveform when the mode is modelled and
evaluates cleanly, the allocated zeros otherwise. -/
def colOfHp (mm : EvaluateSurrogate) (a : EvalArgs) (n : ℕ)
    (avail : List (ℤ × ℤ)) (lm : ℤ × ℤ) : List ℚ :=
  if lm ∈ avail then
    match eval_mode mm a lm with
    | .ok r => colNorm n r.2.1
    | .error _ => List.replicate n 0
  else List.replicate n 0

/-- The `h_cross` column analogue of `colOfHp`. -/
def colOfHc (mm : EvaluateSurrogate) (a : EvalArgs) (n : ℕ)
    (avail : List (ℤ × ℤ)) (lm : ℤ × ℤ) : List ℚ :=
  if lm ∈ avail then
    match eval_mode mm a lm with
    | .ok r => colNorm n r.2.2
    | .error _ => List.replicate n 0
  else List.replicate n 0

/-- Minimum of a numpy array (`arr.min()`, caller must rule out the empty case). -/
def listMin (l : List ℚ) : ℚ := l.foldl min (l.headD 0)

/-- Maximum of a numpy array (`arr.max()`). -/
def listMax (l : List ℚ) : ℚ := l.foldl max (l.headD 0)

/-- The per-mode spline dictionary `h_sphere_builder` caches: fit each mode's
column (indexed by its position in `modes`) against the evaluated grid. -/
def mkSpl (mm : EvaluateSurrogate) (t : List ℚ) (modes : List (ℤ × ℤ))
    (cols : List (List ℚ)) : (ℤ × ℤ) → ℚ → ℚ :=
  fun lm => mm.splineFit t (cols.getD (modes.findIdx (fun p => decide (p = lm))) [])

/-- The closure built by `h_sphere_builder`: evaluate the cached mode splines at
`times`, optionally rotate about the z axis, and either project and sum on the
sphere (both angles given) or return the separated per-mode matrices. -/
def h_sphere (mm : EvaluateSurrogate) (modes : List (ℤ × ℤ))
    (hpSpl hcSpl : (ℤ × ℤ) → ℚ → ℚ) (t_min t_max : ℚ)
    (times : List ℚ) (theta phi z_rot psi_rot : Option ℚ) :
    Except String ((List ℚ × List ℚ) ⊕ (List (List ℚ) × List (List ℚ))) :=
  if times = [] then .error "zero-size array to reduction operation"
  else if listMin times < t_min ∨ listMax times > t_max then
    .error "surrogate cannot be evaluated outside of its time window"
  else
    match psi_rot with
    | some _ => .error "not coded yet"
    | none =>
      let evalM := fun (lm : ℤ × ℤ) =>
        let hpv := times.map (hpSpl lm)
        let hcv := times.map (hcSpl lm)
        let h := List.zipWith (fun p c => Cq.mk p c) hpv hcv
        match z_rot with
        | some zr => h.map (fun z => z * mm.cis (zr * (lm.2 : ℚ)))
        | none => h
      match theta, phi with
      | some th, some ph =>
        let h := modes.foldl (fun acc lm =>
          List.zipWith (· + ·) acc
            ((evalM lm).map (fun z => mm.sYlm_ext (-2) lm.1 lm.2 th ph * z)))
          (List.replicate times.length (0 : Cq))
        .ok (.inl (h.map Cq.re, h.map Cq.im))
      | _, _ =>
        .ok (.inr (modes.map (fun lm => (evalM lm).map Cq.re),
                   modes.map (fun lm => (evalM lm).map Cq.im)))

/-- `h_sphere_builder`: run one full `mode_sum=False`, `fake_neg_modes=True`
evaluation, cache one spline per mode, and return the reusable sphere-evaluation
closure together with the mode list and the `[t_min, t_max]` validity window. -/
def h_sphere_builder (mm : EvaluateSurrogate) (q : ℚ) (M dist : Option ℚ)
    (ell : Option EllArg) (m : Option (List ℤ)) :
    Except String (((List ℚ) → Option ℚ → Option ℚ → Option ℚ → Option ℚ →
        Except String ((List ℚ × List ℚ) ⊕ (List (List ℚ) × List (List ℚ)))) ×
      List (ℤ × ℤ) × List ℚ) :=
  match call mm q M dist none none none none none "dimensionless" ell m false true with
  | .error e => .error e
  | .ok (.summed _ _ _) => .error "too many values to unpack"
  | .ok (.perMode modes t ch cc) =>
    if t = [] then .error "zero-size array to reduction operation"
    else
      .ok (h_sphere mm modes (mkSpl mm t modes ch) (mkSpl mm t modes cc)
             (listMin t) (listMax t), modes, [listMin t, listMax t])

end EvaluateSurrogate

/-- The specification's description of the `waveform_basis` reconstruction
(§4.3): `series = norm_scalar * (Basis @ (amp_vec ⊙ exp(i·phase_vec)))` with
`Basis` the native `B` or its spline resampling at the given samples.  Stated
from the spec's words, to be compared with the source-translated `h_sur`. -/
def waveform_basis_series_spec (sur : EvaluateSingleModeSurrogate) (x0 : ℚ)
    (samples : Option (List ℚ)) : List Cq :=
  let basis :=
    match samples with
    | none => sur.B
    | some s => sur.resample_B s
  let hEIM := List.zipWith (fun a p => Cq.smulQ a (sur.cis p))
    (sur.amp_eval x0) (sur.phase_eval x0)
  (matVecC basis hEIM).map (Cq.smulQ (sur.norm_eval x0))

/-- A concrete single-mode surrogate instance used to witness the theorems:
a two-sample grid, one reduced-basis column, constant fits, and simple
stand-ins for the external collaborator functions. -/
def cSur : EvaluateSingleModeSurrogate where
  surrogate_mode_type := "waveform_basis"
  surrogate_units := "dimensionless"
  times := [0, 1]
  dim_rb := 1
  B := [[⟨1, 0⟩], [⟨2, 0⟩]]
  B_1 := []
  B_2 := []
  reBspline := fun j s => s + j
  imBspline := fun _ _ => 0
  B1spline := fun _ _ => 0
  B2spline := fun _ _ => 0
  fitparams_amp := [[3]]
  fitparams_phase := [[0]]
  fitparams_norm := []
  norms := false
  fit_min := 0
  fit_max := 2
  affine_map := "minus1_to_1"
  amp_fit_func := fun row _ => row.headD 0
  phase_fit_func := fun row _ => row.headD 0
  norm_fit_func := fun _ _ => 1
  get_surr_params := fun q => q
  cis := fun th => ⟨1, th⟩
  instantFreq := fun _ _ _ => 10
  amp_phase_ext := fun hp hc => (hp, hc)
  modify_phase_ext := fun hp hc _ => (hp, hc)

/-- A concrete multi-mode surrogate holding `cSur` as its `(2,2)` mode. -/
def cMulti : EvaluateSurrogate where
  single_modes := [((2, 2), cSur)]
  time_all_modes := [0, 1]
  sYlm_ext := fun _ _ _ th ph => ⟨th, ph⟩
  cis := fun th => ⟨1, th⟩
  splineFit := fun _ _ _ => 0

namespace EvaluateSurrogate

lemma extend_go_nonneg (L : List (ℤ × ℤ)) :
    ∀ acc, (∀ p ∈ L, 0 ≤ p.2) →
      extend_go acc L =
        .ok (acc ++ (L.filter (fun p => decide (0 < p.2))).map (fun p => (p.1, -p.2))) := by
  induction L with
  | nil => intro acc _; simp [extend_go]
  | cons hd tl ih =>
    intro acc h
    obtain ⟨l, m⟩ := hd
    have hm : 0 ≤ m := h (l, m) (by simp)
    rcases lt_or_eq_of_le hm with hpos | hzero
    · rw [extend_go, if_pos hpos]
      rw [ih (acc ++ [(l, -m)]) (fun p hp => h p (List.mem_cons_of_mem _ hp))]
      simp [List.filter_cons, hpos]
    · rw [extend_go, if_neg (by omega), if_neg (by omega)]
      rw [ih acc (fun p hp => h p (List.mem_cons_of_mem _ hp))]
      simp [List.filter_cons, ← hzero]

lemma extend_go_neg (L : List (ℤ × ℤ)) :
    ∀ acc, (∃ p ∈ L, p.2 < 0) →
      extend_go acc L = .error "your list already has negative modes!" := by
  induction L with
  | nil => intro acc h; simp at h
  | cons hd tl ih =>
    intro acc h
    obtain ⟨l, m⟩ := hd
    by_cases hpos : m > 0
    · rw [extend_go, if_pos hpos]
      apply ih
      obtain ⟨p, hp, hneg⟩ := h
      rcases List.mem_cons.mp hp with rfl | hmem
      · exact absurd hneg (by omega)
      · exact ⟨p, hmem, hneg⟩
    · by_cases hneg : m < 0
      · rw [extend_go, if_neg hpos, if_pos hneg]
      · rw [extend_go, if_neg hpos, if_neg hneg]
        apply ih
        obtain ⟨p, hp, hneg2⟩ := h
        rcases List.mem_cons.mp hp with rfl | hmem
        · exact absurd hneg2 (by omega)
        · exact ⟨p, hmem, hneg2⟩

end EvaluateSurrogate

/-- C8: `_extend_mode_list_minus_m` appends `(ell, -m)` for exactly the entries
with `m > 0` (entries with `m = 0` are not mirrored), keeping the original
entries in order before the appended ones, and raises a fatal error whenever the
input list already contains an entry with negative `m`. -/
theorem extend_minus_m_appends_or_errors (L : List (ℤ × ℤ)) :
    ((∀ p ∈ L, 0 ≤ p.2) →
      EvaluateSurrogate.extend_mode_list_minus_m L =
        .ok (L ++ (L.filter (fun p => decide (0 < p.2))).map (fun p => (p.1, -p.2)))) ∧
    ((∃ p ∈ L, p.2 < 0) →
      EvaluateSurrogate.extend_mode_list_minus_m L =
        .error "your list already has negative modes!") :=
  ⟨fun h => EvaluateSurrogate.extend_go_nonneg L L h,
   fun h => EvaluateSurrogate.extend_go_neg L L h⟩

/-- Witness for C8 at concrete inputs: `[(2,2),(3,0)]` extends to
`[(2,2),(3,0),(2,-2)]` (the `m = 0` entry is not mirrored), and a list that
already contains `(2,-2)` raises. -/
theorem extend_minus_m_appends_or_errors_witness :
    EvaluateSurrogate.extend_mode_list_minus_m [((2 : ℤ), (2 : ℤ)), (3, 0)] =
      .ok [(2, 2), (3, 0), (2, -2)] ∧
    EvaluateSurrogate.extend_mode_list_minus_m [((2 : ℤ), (-2 : ℤ))] =
      .error "your list already has negative modes!" :=
  ⟨(extend_minus_m_appends_or_errors _).1 (by decide),
   (extend_minus_m_appends_or_errors _).2 ⟨(2, -2), by decide, by decide⟩⟩

/-- C1: with `ell` and `m` both given as lists, `generate_mode_eval_list`
returns the Cartesian product `[(x, y) for x in ell for y in m]`, not the
element-wise pairing `zip(ell, m)` that the spec (and the method's own
docstring, "for each ell, supply a matching m value") describe: on
`ell=[2,3], m=[2,3]` it yields four modes instead of two. -/
theorem mode_eval_list_pairs_is_cartesian_product :
    EvaluateSurrogate.generate_mode_eval_list cMulti (some (.lst [2, 3]))
        (some [2, 3]) false =
      .ok [(2, 2), (2, 3), (3, 2), (3, 3)] ∧
    EvaluateSurrogate.generate_mode_eval_list cMulti (some (.lst [2, 3]))
        (some [2, 3]) false ≠
      .ok (List.zip [2, 3] [2, 3]) := by
  constructor
  · rfl
  · decide

/-- C3: for a trained mode with `m > 0`, the derived `(ell, -m)` waveform of the
symmetry path satisfies `h_plus(l,-m) = (-1)^l · h_plus(l,m)` and
`h_cross(l,-m) = -(-1)^l · h_cross(l,m)` exactly, i.e.
`h(l,-m) = (-1)^l · conj(h(l,m))`, with no numerical tolerance. -/
theorem minus_m_mode_symmetry (mm : EvaluateSurrogate) (q : ℚ)
    (M dist phi_ref f_low : Option ℚ) (samples : Option (List ℚ)) (su : String)
    (ell m : ℤ) (hm : 0 < m) (t hp hc : List ℚ)
    (h : mm.evaluate_single_mode q M dist phi_ref f_low samples su ell m =
      .ok (t, hp, hc)) :
    mm.evaluate_single_mode_minus q M dist phi_ref f_low samples su ell (-m) =
      .ok (t, hp.map (fun v => (-1 : ℚ) ^ ell * v),
           hc.map (fun v => -((-1 : ℚ) ^ ell) * v)) := by
  rw [EvaluateSurrogate.evaluate_single_mode_minus, if_pos (by omega : -m < 0)]
  rw [neg_neg, h]
  simp only [EvaluateSurrogate.generate_minus_m_mode, if_neg (by omega : ¬ m ≤ 0)]

/-- Witness for C3: the concrete `(2,2)` mode of `cMulti` evaluates to
`([0,1],[3,6],[0,0])`, and the symmetry path produces the `(2,-2)` mode
`([0,1],[3,6],[0,0])` (sign `(-1)^2 = 1`, `h_cross` negated to `-0`). -/
theorem minus_m_mode_symmetry_witness :
    cMulti.evaluate_single_mode_minus 1 none none none none none "dimensionless" 2 (-2) =
      .ok ([0, 1], [3, 6].map (fun v => (-1 : ℚ) ^ (2 : ℤ) * v),
           [0, 0].map (fun v => -((-1 : ℚ) ^ (2 : ℤ)) * v)) :=
  minus_m_mode_symmetry cMulti 1 none none none none none "dimensionless" 2 2
    (by decide) [0, 1] [3, 6] [0, 0] (by with_unfolding_all decide)

/-- Counterexample to C2 as stated: on a concrete surrogate whose instantaneous
starting frequency (10) exceeds the requested `f_low = 1`, the evaluation does
not proceed to return the waveform triple — the `raise Warning, ...` in
`find_instant_freq` aborts the call — even though the same call with no `f_low`
returns `([0,1],[3,6],[0,0])`. -/
theorem flow_warning_aborts_cex :
    EvaluateSingleModeSurrogate.call cSur 1 none none none none none "dimensionless" =
      .ok ([0, 1], [3, 6], [0, 0]) ∧
    cSur.instantFreq [3, 6] [0, 0] [0, 1] > 1 ∧
    EvaluateSingleModeSurrogate.call cSur 1 none none none (some 1) none "dimensionless" =
      .error "starting frequency is above f_low" :=
  ⟨by with_unfolding_all decide, by with_unfolding_all decide,
   by with_unfolding_all decide⟩

/-- C2 (amended): when `f_low` is given and the computed instantaneous starting
frequency exceeds it, the single-mode evaluation raises a `Warning` exception
and aborts without returning the waveform triple (the source executes
`raise Warning, ...`, which propagates out of `__call__`); the warning is not
merely advisory. -/
theorem flow_exceeded_raises_and_aborts (sur : EvaluateSingleModeSurrogate) (q : ℚ)
    (M dist phi_ref : Option ℚ) (samples : Option (List ℚ)) (fl : ℚ)
    (t hp hc : List ℚ)
    (h0 : sur.call q M dist phi_ref none samples "dimensionless" = .ok (t, hp, hc))
    (hf : sur.instantFreq hp hc t > fl) :
    sur.call q M dist phi_ref (some fl) samples "dimensionless" =
      .error "starting frequency is above f_low" := by
  unfold EvaluateSingleModeSurrogate.call at h0 ⊢
  by_cases hu : sur.surrogate_units ≠ "dimensionless"
  · rw [if_pos hu] at h0; exact absurd h0 (by simp)
  · rw [if_neg hu] at h0 ⊢
    rw [if_neg (by simp)] at h0 ⊢
    cases hb : EvaluateSingleModeSurrogate.call_body sur q M dist phi_ref samples
        "dimensionless" with
    | error e => rw [hb] at h0; exact absurd h0 (by simp)
    | ok tr =>
      rw [hb] at h0
      obtain ⟨t0, hp0, hc0⟩ := tr
      simp only [Except.ok.injEq, Prod.mk.injEq] at h0
      obtain ⟨rfl, rfl, rfl⟩ := h0
      simp only [EvaluateSingleModeSurrogate.find_instant_freq, if_pos hf]

/-- Witness for C2 (amended) at the concrete surrogate `cSur`, whose `f_low`-free
evaluation returns `([0,1],[3,6],[0,0])` and whose starting frequency `10`
exceeds `f_low = 1`. -/
theorem flow_exceeded_raises_and_aborts_witness :
    EvaluateSingleModeSurrogate.call cSur 1 none none none (some 1) none "dimensionless" =
      .error "starting frequency is above f_low" :=
  flow_exceeded_raises_and_aborts cSur 1 none none none none 1 [0, 1] [3, 6] [0, 0]
    (by with_unfolding_all decide) (by with_unfolding_all decide)

namespace EvaluateSingleModeSurrogate

lemma checker_minus1 (sur : EvaluateSingleModeSurrogate) (x : ℚ)
    (h : sur.affine_map = "minus1_to_1") :
    sur.affine_mapper_checker x =
      .ok (2 * (x - sur.fit_min) / (sur.fit_max - sur.fit_min) - 1,
           decide (x < sur.fit_min) || decide (x > sur.fit_max)) := by
  unfold affine_mapper_checker
  rw [h]
  rfl

lemma checker_zero1 (sur : EvaluateSingleModeSurrogate) (x : ℚ)
    (h : sur.affine_map = "zero_to_1") :
    sur.affine_mapper_checker x =
      .ok ((x - sur.fit_min) / (sur.fit_max - sur.fit_min),
           decide (x < sur.fit_min) || decide (x > sur.fit_max)) := by
  unfold affine_mapper_checker
  rw [h]
  rfl

lemma checker_none (sur : EvaluateSingleModeSurrogate) (x : ℚ)
    (h : sur.affine_map = "none") :
    sur.affine_mapper_checker x =
      .ok (x, decide (x < sur.fit_min) || decide (x > sur.fit_max)) := by
  unfold affine_mapper_checker
  rw [h]
  rfl

lemma checker_unknown (sur : EvaluateSingleModeSurrogate) (x : ℚ)
    (h1 : sur.affine_map ≠ "minus1_to_1") (h2 : sur.affine_map ≠ "zero_to_1")
    (h3 : sur.affine_map ≠ "none") :
    sur.affine_mapper_checker x = .error "unknown affine map" := by
  unfold affine_mapper_checker
  rw [if_neg h1, if_neg h2, if_neg h3]

end EvaluateSingleModeSurrogate

/-- C5: on a nondegenerate fit interval, `_affine_mapper_checker` is monotonic
and maps `x_min ↦ -1`, `x_max ↦ 1` exactly under `minus1_to_1`, maps
`x_min ↦ 0`, `x_max ↦ 1` exactly under `zero_to_1`, is the identity under
`none`, and raises a fatal error on any other `affine_map` value. -/
theorem affine_map_endpoints_monotone_identity (sur : EvaluateSingleModeSurrogate)
    (x₁ x₂ : ℚ) (hord : sur.fit_min < sur.fit_max) (hle : x₁ ≤ x₂) :
    (sur.affine_map = "minus1_to_1" →
      (sur.affine_mapper_checker sur.fit_min).map Prod.fst = .ok (-1) ∧
      (sur.affine_mapper_checker sur.fit_max).map Prod.fst = .ok 1 ∧
      ∃ y₁ y₂, (sur.affine_mapper_checker x₁).map Prod.fst = .ok y₁ ∧
        (sur.affine_mapper_checker x₂).map Prod.fst = .ok y₂ ∧ y₁ ≤ y₂) ∧
    (sur.affine_map = "zero_to_1" →
      (sur.affine_mapper_checker sur.fit_min).map Prod.fst = .ok 0 ∧
      (sur.affine_mapper_checker sur.fit_max).map Prod.fst = .ok 1 ∧
      ∃ y₁ y₂, (sur.affine_mapper_checker x₁).map Prod.fst = .ok y₁ ∧
        (sur.affine_mapper_checker x₂).map Prod.fst = .ok y₂ ∧ y₁ ≤ y₂) ∧
    (sur.affine_map = "none" →
      (sur.affine_mapper_checker x₁).map Prod.fst = .ok x₁ ∧
      (sur.affine_mapper_checker x₂).map Prod.fst = .ok x₂) ∧
    (sur.affine_map ≠ "minus1_to_1" → sur.affine_map ≠ "zero_to_1" →
      sur.affine_map ≠ "none" →
      sur.affine_mapper_checker x₁ = .error "unknown affine map") := by
  have hd : (0 : ℚ) < sur.fit_max - sur.fit_min := by linarith
  have hne : sur.fit_max - sur.fit_min ≠ 0 := ne_of_gt hd
  refine ⟨fun h => ?_, fun h => ?_, fun h => ?_, fun h1 h2 h3 => ?_⟩
  · rw [EvaluateSingleModeSurrogate.checker_minus1 sur sur.fit_min h,
        EvaluateSingleModeSurrogate.checker_minus1 sur sur.fit_max h,
        EvaluateSingleModeSurrogate.checker_minus1 sur x₁ h,
        EvaluateSingleModeSurrogate.checker_minus1 sur x₂ h]
    simp only [Except.map]
    refine ⟨by norm_num, ?_, _, _, rfl, rfl, ?_⟩
    · rw [mul_div_assoc, div_self hne]; norm_num
    · have h2 : 2 * (x₁ - sur.fit_min) / (sur.fit_max - sur.fit_min) ≤
          2 * (x₂ - sur.fit_min) / (sur.fit_max - sur.fit_min) := by
        gcongr
      linarith
  · rw [EvaluateSingleModeSurrogate.checker_zero1 sur sur.fit_min h,
        EvaluateSingleModeSurrogate.checker_zero1 sur sur.fit_max h,
        EvaluateSingleModeSurrogate.checker_zero1 sur x₁ h,
        EvaluateSingleModeSurrogate.checker_zero1 sur x₂ h]
    simp only [Except.map]
    refine ⟨by norm_num, ?_, _, _, rfl, rfl, ?_⟩
    · rw [div_self hne]
    · gcongr
  · rw [EvaluateSingleModeSurrogate.checker_none sur x₁ h,
        EvaluateSingleModeSurrogate.checker_none sur x₂ h]
    exact ⟨rfl, rfl⟩
  · exact EvaluateSingleModeSurrogate.checker_unknown sur x₁ h1 h2 h3

/-- Witness for C5 on the concrete surrogate `cSur` (interval `[0,2]`, map
`minus1_to_1`): the endpoints map exactly to `-1` and `1`. -/
theorem affine_map_endpoints_monotone_identity_witness :
    (cSur.affine_mapper_checker 0).map Prod.fst = .ok (-1) ∧
    (cSur.affine_mapper_checker 2).map Prod.fst = .ok 1 :=
  ⟨((affine_map_endpoints_monotone_identity cSur 0 1
      (by with_unfolding_all decide) (by norm_num)).1 rfl).1,
   ((affine_map_endpoints_monotone_identity cSur 0 1
      (by with_unfolding_all decide) (by norm_num)).1 rfl).2.1⟩

/-- C6: under the `waveform_basis` representation, `_h_sur` returns exactly the
real and imaginary parts of
`norm_scalar * (Basis @ (amp_vec ⊙ exp(i·phase_vec)))`, where `Basis` is the
native `B` when `samples` is absent and the spline-resampled `B` at the given
samples otherwise (the spec-side formula `waveform_basis_series_spec`). -/
theorem waveform_basis_reconstruction_formula (sur : EvaluateSingleModeSurrogate)
    (x x0 : ℚ) (w : Bool) (samples : Option (List ℚ))
    (hmode : sur.surrogate_mode_type = "waveform_basis")
    (hx0 : sur.affine_mapper_checker x = .ok (x0, w)) :
    sur.h_sur x samples =
      .ok ((waveform_basis_series_spec sur x0 samples).map Cq.re,
           (waveform_basis_series_spec sur x0 samples).map Cq.im) := by
  rw [EvaluateSingleModeSurrogate.h_sur, hx0]
  simp only [hmode, if_pos, waveform_basis_series_spec]
  cases samples <;> rfl

/-- Witness for C6 on the concrete surrogate `cSur` at `x = 1` (so `x_0 = 0`),
on the native grid. -/
theorem waveform_basis_reconstruction_formula_witness :
    cSur.h_sur 1 none =
      .ok ((waveform_basis_series_spec cSur 0 none).map Cq.re,
           (waveform_basis_series_spec cSur 0 none).map Cq.im) :=
  waveform_basis_reconstruction_formula cSur 1 0 false none rfl
    (by with_unfolding_all decide)

lemma h_sur_ok_of_known_tags (sur : EvaluateSingleModeSurrogate) (x : ℚ)
    (samples : Option (List ℚ)) (x0 : ℚ) (w : Bool)
    (hchk : sur.affine_mapper_checker x = .ok (x0, w))
    (hmode : sur.surrogate_mode_type = "waveform_basis" ∨
      sur.surrogate_mode_type = "amp_phase_basis") :
    ∃ hp hc, sur.h_sur x samples = .ok (hp, hc) := by
  rw [EvaluateSingleModeSurrogate.h_sur, hchk]
  rcases hmode with hm | hm <;> rw [hm] <;> exact ⟨_, _, rfl⟩

/-- C9: when the (converted) parameter lies outside the trained `fit_interval`,
the affine mapper still succeeds with its warning flag raised — the printed
extrapolation warning is non-fatal — and the single-mode evaluation proceeds to
return a waveform triple; the out-of-range parameter never aborts the call. -/
theorem extrapolation_warns_and_proceeds (sur : EvaluateSingleModeSurrogate)
    (q : ℚ) (M dist phi_ref : Option ℚ) (samples : Option (List ℚ))
    (hu : sur.surrogate_units = "dimensionless")
    (hmap : sur.affine_map = "minus1_to_1" ∨ sur.affine_map = "zero_to_1" ∨
      sur.affine_map = "none")
    (hmode : sur.surrogate_mode_type = "waveform_basis" ∨
      sur.surrogate_mode_type = "amp_phase_basis")
    (hx : sur.get_surr_params q < sur.fit_min ∨ sur.get_surr_params q > sur.fit_max) :
    (∃ x0, sur.affine_mapper_checker (sur.get_surr_params q) = .ok (x0, true)) ∧
    ∃ t hp hc, sur.call q M dist phi_ref none samples "dimensionless" = .ok (t, hp, hc) := by
  have hwarn : (decide (sur.get_surr_params q < sur.fit_min) ||
      decide (sur.get_surr_params q > sur.fit_max)) = true := by
    rcases hx with hx | hx <;> simp [hx]
  have hchk : ∃ x0, sur.affine_mapper_checker (sur.get_surr_params q) = .ok (x0, true) := by
    rcases hmap with h | h | h
    · exact ⟨_, by rw [EvaluateSingleModeSurrogate.checker_minus1 sur _ h, hwarn]⟩
    · exact ⟨_, by rw [EvaluateSingleModeSurrogate.checker_zero1 sur _ h, hwarn]⟩
    · exact ⟨_, by rw [EvaluateSingleModeSurrogate.checker_none sur _ h, hwarn]⟩
  refine ⟨hchk, ?_⟩
  obtain ⟨x0, hchk0⟩ := hchk
  obtain ⟨hp, hc, hhs⟩ := h_sur_ok_of_known_tags sur (sur.get_surr_params q)
    samples x0 true hchk0 hmode
  unfold EvaluateSingleModeSurrogate.call
  rw [if_neg (by simp [hu]), if_neg (by simp)]
  have hbody : ∃ t hpb hcb,
      EvaluateSingleModeSurrogate.call_body sur q M dist phi_ref samples
        "dimensionless" = .ok (t, hpb, hcb) := by
    unfold EvaluateSingleModeSurrogate.call_body
    simp only []
    rw [if_neg (by decide)]
    rw [hhs]
    cases phi_ref <;> exact ⟨_, _, _, rfl⟩
  obtain ⟨t, hpb, hcb, hbody⟩ := hbody
  rw [hbody]
  exact ⟨_, _, _, rfl⟩

/-- Witness for C9: evaluating `cSur` at `q = 5`, outside its `[0,2]` fit
interval, raises the warning flag and still returns a waveform. -/
theorem extrapolation_warns_and_proceeds_witness :
    (∃ x0, cSur.affine_mapper_checker (cSur.get_surr_params 5) = .ok (x0, true)) ∧
    ∃ t hp hc, cSur.call 5 none none none none none "dimensionless" = .ok (t, hp, hc) :=
  extrapolation_warns_and_proceeds cSur 5 none none none none rfl (Or.inl rfl)
    (Or.inl rfl) (Or.inr (by with_unfolding_all decide))

lemma colNorm_length (n : ℕ) (v : List ℚ) : (colNorm n v).length = n := by
  unfold colNorm
  split
  · assumption
  · simp

lemma npAssignCol_ok (n : ℕ) (v w : List ℚ) (h : npAssignCol n v = .ok w) :
    w = colNorm n v ∧ (v.length = n ∨ v.length = 1) := by
  unfold npAssignCol at h
  unfold colNorm
  split at h
  · rename_i hn
    rw [if_pos hn]
    cases h
    exact ⟨rfl, Or.inl hn⟩
  · split at h
    · rename_i hn h1
      rw [if_neg hn]
      cases h
      exact ⟨rfl, Or.inr h1⟩
    · cases h

lemma zipWith_add_getD (a b : List ℚ) (k : ℕ) (ha : k < a.length) (hb : k < b.length) :
    (List.zipWith (· + ·) a b).getD k 0 = a.getD k 0 + b.getD k 0 := by
  induction a generalizing b k with
  | nil => simp at ha
  | cons x xs ih =>
    cases b with
    | nil => simp at hb
    | cons y ys =>
      cases k with
      | zero => simp
      | succ k =>
        simp only [List.zipWith_cons_cons, List.getD_cons_succ]
        exact ih ys k (by simpa using ha) (by simpa using hb)

lemma zipWith_add_replicate_right (a : List ℚ) (n : ℕ) (b : ℚ) (h : a.length = n) :
    List.zipWith (· + ·) a (List.replicate n b) = a.map (fun v => v + b) := by
  induction a generalizing n with
  | nil => simp
  | cons x xs ih =>
    cases n with
    | zero => simp at h
    | succ n => simp [List.replicate_succ, ih n (by simpa using h)]

lemma npAdd_ok_of_shape (n : ℕ) (acc v : List ℚ) (hacc : acc.length = n)
    (hv : v.length = n ∨ v.length = 1) :
    npAdd acc v = .ok (List.zipWith (· + ·) acc (colNorm n v)) := by
  unfold npAdd colNorm
  rcases hv with hv | hv
  · rw [if_pos (by omega), if_pos hv]
  · by_cases hn : v.length = n
    · rw [if_pos (by omega), if_pos hn]
    · rw [if_neg (by omega), if_pos hv, if_neg hn]
      rw [zipWith_add_replicate_right acc n (v.headD 0) hacc]

lemma replicate_zero_getD (n k : ℕ) : (List.replicate n (0 : ℚ)).getD k 0 = 0 := by
  induction n generalizing k with
  | zero => simp
  | succ n ih =>
    cases k with
    | zero => simp [List.replicate_succ]
    | succ k => simp [List.replicate_succ, ih k]

namespace EvaluateSurrogate

lemma colOfHp_length (mm : EvaluateSurrogate) (a : EvalArgs) (n : ℕ)
    (avail : List (ℤ × ℤ)) (lm : ℤ × ℤ) : (colOfHp mm a n avail lm).length = n := by
  unfold colOfHp
  split
  · split
    · exact colNorm_length n _
    · simp
  · simp

lemma colOfHc_length (mm : EvaluateSurrogate) (a : EvalArgs) (n : ℕ)
    (avail : List (ℤ × ℤ)) (lm : ℤ × ℤ) : (colOfHc mm a n avail lm).length = n := by
  unfold colOfHc
  split
  · split
    · exact colNorm_length n _
    · simp
  · simp

lemma cols_loop_spec (mm : EvaluateSurrogate) (a : EvalArgs) (n : ℕ)
    (avail : List (ℤ × ℤ)) (L : List (ℤ × ℤ)) :
    ∀ tacc ch cc tr chr ccr,
      call_loop_cols mm a n avail L tacc ch cc = .ok (tr, chr, ccr) →
      chr = ch ++ L.map (colOfHp mm a n avail) ∧
      ccr = cc ++ L.map (colOfHc mm a n avail) ∧
      ∀ lm ∈ L, lm ∈ avail → ∀ t hpm hcm, eval_mode mm a lm = .ok (t, hpm, hcm) →
        (hpm.length = n ∨ hpm.length = 1) ∧ (hcm.length = n ∨ hcm.length = 1) := by
  induction L with
  | nil =>
    intro tacc ch cc tr chr ccr h
    rw [call_loop_cols] at h
    simp only [Except.ok.injEq, Prod.mk.injEq] at h
    obtain ⟨-, rfl, rfl⟩ := h
    simp
  | cons lm rest ih =>
    intro tacc ch cc tr chr ccr h
    rw [call_loop_cols] at h
    by_cases hmem : lm ∈ avail
    · rw [if_pos hmem] at h
      cases he : eval_mode mm a lm with
      | error e => rw [he] at h; cases h
      | ok r =>
        obtain ⟨t0, hpm, hcm⟩ := r
        rw [he] at h
        dsimp only at h
        cases ha1 : npAssignCol n hpm with
        | error e => rw [ha1] at h; cases h
        | ok c1 =>
          rw [ha1] at h
          dsimp only at h
          cases ha2 : npAssignCol n hcm with
          | error e => rw [ha2] at h; cases h
          | ok c2 =>
            rw [ha2] at h
            dsimp only at h
            obtain ⟨hch, hcc, hsh⟩ := ih _ _ _ _ _ _ h
            obtain ⟨hc1, hs1⟩ := npAssignCol_ok n hpm c1 ha1
            obtain ⟨hc2, hs2⟩ := npAssignCol_ok n hcm c2 ha2
            have hcol1 : colOfHp mm a n avail lm = c1 := by
              unfold colOfHp; rw [if_pos hmem, he, hc1]
            have hcol2 : colOfHc mm a n avail lm = c2 := by
              unfold colOfHc; rw [if_pos hmem, he, hc2]
            refine ⟨?_, ?_, ?_⟩
            · rw [hch, List.map_cons, hcol1]; simp
            · rw [hcc, List.map_cons, hcol2]; simp
            · intro lm2 hlm2 hmem2 t2 hpm2 hcm2 he2
              rcases List.mem_cons.mp hlm2 with rfl | hlm2
              · rw [he2] at he
                simp only [Except.ok.injEq, Prod.mk.injEq] at he
                obtain ⟨-, rfl, rfl⟩ := he
                exact ⟨hs1, hs2⟩
              · exact hsh lm2 hlm2 hmem2 t2 hpm2 hcm2 he2
    · rw [if_neg hmem] at h
      obtain ⟨hch, hcc, hsh⟩ := ih _ _ _ _ _ _ h
      have hcol1 : colOfHp mm a n avail lm = List.replicate n 0 := by
        unfold colOfHp; rw [if_neg hmem]
      have hcol2 : colOfHc mm a n avail lm = List.replicate n 0 := by
        unfold colOfHc; rw [if_neg hmem]
      refine ⟨?_, ?_, ?_⟩
      · rw [hch, List.map_cons, hcol1]; simp
      · rw [hcc, List.map_cons, hcol2]; simp
      · intro lm2 hlm2 hmem2 t2 hpm2 hcm2 he2
        rcases List.mem_cons.mp hlm2 with rfl | hlm2
        · exact absurd hmem2 hmem
        · exact hsh lm2 hlm2 hmem2 t2 hpm2 hcm2 he2

end EvaluateSurrogate

namespace EvaluateSurrogate

lemma addCols_cons (acc c : List ℚ) (cs : List (List ℚ)) :
    addCols acc (c :: cs) = addCols (List.zipWith (· + ·) acc c) cs := rfl

lemma sum_loop_spec (mm : EvaluateSurrogate) (a : EvalArgs) (n : ℕ)
    (avail : List (ℤ × ℤ)) (L : List (ℤ × ℤ)) :
    ∀ tacc hp0 hc0 tr hpr hcr,
      hp0.length = n → hc0.length = n →
      (∀ lm ∈ L, lm ∈ avail → ∀ t hpm hcm, eval_mode mm a lm = .ok (t, hpm, hcm) →
        (hpm.length = n ∨ hpm.length = 1) ∧ (hcm.length = n ∨ hcm.length = 1)) →
      call_loop_sum mm a avail L tacc hp0 hc0 = .ok (tr, hpr, hcr) →
      hpr = addCols hp0 (L.map (colOfHp mm a n avail)) ∧
      hcr = addCols hc0 (L.map (colOfHc mm a n avail)) := by
  induction L with
  | nil =>
    intro tacc hp0 hc0 tr hpr hcr h1 h2 hsh h
    rw [call_loop_sum] at h
    simp only [Except.ok.injEq, Prod.mk.injEq] at h
    obtain ⟨-, rfl, rfl⟩ := h
    simp [addCols]
  | cons lm rest ih =>
    intro tacc hp0 hc0 tr hpr hcr h1 h2 hsh h
    rw [call_loop_sum] at h
    by_cases hmem : lm ∈ avail
    · rw [if_pos hmem] at h
      cases he : eval_mode mm a lm with
      | error e => rw [he] at h; cases h
      | ok r =>
        obtain ⟨t0, hpm, hcm⟩ := r
        rw [he] at h
        dsimp only at h
        obtain ⟨hsp, hsc⟩ := hsh lm (by simp) hmem t0 hpm hcm he
        rw [npAdd_ok_of_shape n hp0 hpm h1 hsp] at h
        dsimp only at h
        rw [npAdd_ok_of_shape n hc0 hcm h2 hsc] at h
        dsimp only at h
        have hlen1 : (List.zipWith (· + ·) hp0 (colNorm n hpm)).length = n := by
          rw [List.length_zipWith, h1, colNorm_length]; omega
        have hlen2 : (List.zipWith (· + ·) hc0 (colNorm n hcm)).length = n := by
          rw [List.length_zipWith, h2, colNorm_length]; omega
        obtain ⟨hp', hc'⟩ := ih _ _ _ _ _ _ hlen1 hlen2
          (fun lm2 hlm2 => hsh lm2 (List.mem_cons_of_mem _ hlm2)) h
        have hcol1 : colOfHp mm a n avail lm = colNorm n hpm := by
          unfold colOfHp; rw [if_pos hmem, he]
        have hcol2 : colOfHc mm a n avail lm = colNorm n hcm := by
          unfold colOfHc; rw [if_pos hmem, he]
        constructor
        · rw [List.map_cons, hcol1, hp']; rfl
        · rw [List.map_cons, hcol2, hc']; rfl
    · rw [if_neg hmem] at h
      obtain ⟨hp', hc'⟩ := ih _ _ _ _ _ _ h1 h2
        (fun lm2 hlm2 => hsh lm2 (List.mem_cons_of_mem _ hlm2)) h
      have hcol1 : colOfHp mm a n avail lm = List.replicate n 0 := by
        unfold colOfHp; rw [if_neg hmem]
      have hcol2 : colOfHc mm a n avail lm = List.replicate n 0 := by
        unfold colOfHc; rw [if_neg hmem]
      have hz1 : List.zipWith (· + ·) hp0 (List.replicate n (0 : ℚ)) = hp0 := by
        rw [zipWith_add_replicate_right hp0 n 0 h1]; simp
      have hz2 : List.zipWith (· + ·) hc0 (List.replicate n (0 : ℚ)) = hc0 := by
        rw [zipWith_add_replicate_right hc0 n 0 h2]; simp
      constructor
      · rw [List.map_cons, hcol1, hp', addCols_cons, hz1]
      · rw [List.map_cons, hcol2, hc', addCols_cons, hz2]

lemma addCols_spec (n : ℕ) (cols : List (List ℚ)) :
    ∀ acc, acc.length = n → (∀ c ∈ cols, c.length = n) →
      (addCols acc cols).length = n ∧
      ∀ k, k < n → (addCols acc cols).getD k 0 =
        acc.getD k 0 + (cols.map (fun c => c.getD k 0)).sum := by
  induction cols with
  | nil => intro acc ha _; simp [addCols, ha]
  | cons c cs ih =>
    intro acc ha hc
    have hcn : c.length = n := hc c (by simp)
    have hlen : (List.zipWith (· + ·) acc c).length = n := by
      rw [List.length_zipWith, ha, hcn]; omega
    obtain ⟨ihl, ihd⟩ := ih (List.zipWith (· + ·) acc c) hlen
      (fun c2 hc2 => hc c2 (List.mem_cons_of_mem _ hc2))
    have hstep : addCols acc (c :: cs) = addCols (List.zipWith (· + ·) acc c) cs :=
      addCols_cons acc c cs
    refine ⟨by rw [hstep]; exact ihl, fun k hk => ?_⟩
    rw [hstep, ihd k hk, zipWith_add_getD acc c k (by omega) (by omega)]
    simp [add_assoc]

end EvaluateSurrogate

lemma ext_getD (n : ℕ) (a b : List ℚ) (ha : a.length = n) (hb : b.length = n)
    (h : ∀ k, k < n → a.getD k 0 = b.getD k 0) : a = b := by
  apply List.ext_getElem (by omega)
  intro i h1 h2
  have := h i (by omega)
  rwa [List.getD_eq_getElem a 0 h1, List.getD_eq_getElem b 0 h2] at this

namespace EvaluateSurrogate

lemma sum_columns_length (n : ℕ) (cols : List (List ℚ)) :
    (sum_columns n cols).length = n := by
  simp [sum_columns]

lemma sum_columns_getD (n : ℕ) (cols : List (List ℚ)) (k : ℕ) (hk : k < n) :
    (sum_columns n cols).getD k 0 = (cols.map (fun c => c.getD k 0)).sum := by
  unfold sum_columns
  rw [List.getD_eq_getElem _ 0 (by simp [hk])]
  simp

end EvaluateSurrogate

/-- C4: for the same parameter, angles and mode list, the `mode_sum=True`
output equals the element-wise sum over modes of the per-mode columns returned
by the `mode_sum=False` evaluation (which differs only by a stable sort of the
mode list, a permutation that leaves the sum unchanged). -/
theorem mode_sum_matches_column_sum (mm : EvaluateSurrogate) (q : ℚ)
    (M dist theta phi f_low : Option ℚ) (samples : Option (List ℚ)) (su : String)
    (ell : Option EllArg) (m : Option (List ℤ)) (fake : Bool)
    (t hp hc : List ℚ) (modes : List (ℤ × ℤ)) (t2 : List ℚ) (ch cc : List (List ℚ))
    (h1 : mm.call q M dist theta phi none f_low samples su ell m true fake =
      .ok (.summed t hp hc))
    (h2 : mm.call q M dist theta phi none f_low samples su ell m false fake =
      .ok (.perMode modes t2 ch cc)) :
    hp = EvaluateSurrogate.sum_columns (mm.alloc_len samples) ch ∧
    hc = EvaluateSurrogate.sum_columns (mm.alloc_len samples) cc := by
  unfold EvaluateSurrogate.call at h1 h2
  dsimp only at h1 h2
  cases hg : EvaluateSurrogate.generate_mode_eval_list mm ell m fake with
  | error e => rw [hg] at h1; cases h1
  | ok modes0 =>
  rw [hg] at h1 h2
  dsimp only at h1 h2
  cases hA : EvaluateSurrogate.all_model_modes mm true with
  | error e => rw [hA] at h1; cases h1
  | ok avail =>
  rw [hA] at h1 h2
  dsimp only at h1 h2
  rw [if_pos (rfl : (true : Bool) = true)] at h1
  rw [if_pos (rfl : (true : Bool) = true)] at h1
  rw [if_neg (by decide : ¬ ((false : Bool) = true))] at h2
  rw [if_neg (by decide : ¬ ((false : Bool) = true))] at h2
  set n := mm.alloc_len samples with hn
  set a : EvaluateSurrogate.EvalArgs :=
    ⟨q, M, dist, none, f_low, samples, su, theta, phi⟩ with ha
  cases hs : EvaluateSurrogate.call_loop_sum mm a avail modes0 none
      (List.replicate n 0) (List.replicate n 0) with
  | error e => rw [hs] at h1; cases h1
  | ok rs =>
  obtain ⟨ts, hps, hcs⟩ := rs
  rw [hs] at h1
  cases ts with
  | none => dsimp only at h1; cases h1
  | some tval =>
  dsimp only at h1
  simp only [Except.ok.injEq, CallOutput.summed.injEq] at h1
  obtain ⟨-, rfl, rfl⟩ := h1
  cases hcl : EvaluateSurrogate.call_loop_cols mm a n avail
      (EvaluateSurrogate.sort_mode_list modes0) none [] [] with
  | error e => rw [hcl] at h2; cases h2
  | ok rc =>
  obtain ⟨tc, chc, ccc⟩ := rc
  rw [hcl] at h2
  cases tc with
  | none => dsimp only at h2; cases h2
  | some tcval =>
  dsimp only at h2
  simp only [Except.ok.injEq, CallOutput.perMode.injEq] at h2
  obtain ⟨-, -, rfl, rfl⟩ := h2
  -- characterize both loops
  have hperm : List.Perm (EvaluateSurrogate.sort_mode_list modes0) modes0 :=
    List.perm_insertionSort _ modes0
  obtain ⟨hch, hcc, hshape⟩ := EvaluateSurrogate.cols_loop_spec mm a n avail
    (EvaluateSurrogate.sort_mode_list modes0) none [] [] _ _ _ hcl
  have hshape0 : ∀ lm ∈ modes0, lm ∈ avail → ∀ t hpm hcm,
      EvaluateSurrogate.eval_mode mm a lm = .ok (t, hpm, hcm) →
      (hpm.length = n ∨ hpm.length = 1) ∧ (hcm.length = n ∨ hcm.length = 1) :=
    fun lm hlm => hshape lm (hperm.mem_iff.mpr hlm)
  obtain ⟨hhp, hhc⟩ := EvaluateSurrogate.sum_loop_spec mm a n avail modes0 none
    (List.replicate n 0) (List.replicate n 0) _ _ _ (by simp) (by simp) hshape0 hs
  rw [List.nil_append] at hch hcc
  -- both sides are pointwise sums; conclude by extensionality and permutation
  have main : ∀ (colOf : (ℤ × ℤ) → List ℚ), (∀ lm, (colOf lm).length = n) →
      EvaluateSurrogate.addCols (List.replicate n 0) (modes0.map colOf) =
      EvaluateSurrogate.sum_columns n ((EvaluateSurrogate.sort_mode_list modes0).map colOf) := by
    intro colOf hlen
    have hc1 : ∀ c ∈ modes0.map colOf, c.length = n := by
      intro c hcmem
      obtain ⟨lm, -, rfl⟩ := List.mem_map.mp hcmem
      exact hlen lm
    obtain ⟨hal, had⟩ := EvaluateSurrogate.addCols_spec n (modes0.map colOf)
      (List.replicate n 0) (by simp) hc1
    apply ext_getD n _ _ hal (EvaluateSurrogate.sum_columns_length n _)
    intro k hk
    rw [had k hk, EvaluateSurrogate.sum_columns_getD n _ k hk,
        replicate_zero_getD, zero_add, List.map_map, List.map_map]
    exact ((hperm.map (fun c => (colOf c).getD k 0)).sum_eq).symm
  constructor
  · rw [hhp, hch]
    exact main (EvaluateSurrogate.colOfHp mm a n avail)
      (EvaluateSurrogate.colOfHp_length mm a n avail)
  · rw [hhc, hcc]
    exact main (EvaluateSurrogate.colOfHc mm a n avail)
      (EvaluateSurrogate.colOfHc_length mm a n avail)

/-- Witness for C4: on `cMulti` with mode list `[(2,2)]`, theta and phi absent,
the summed output `([3,6],[0,0])` equals the column sums of the per-mode
output. -/
theorem mode_sum_matches_column_sum_witness :
    [3, 6] = EvaluateSurrogate.sum_columns (cMulti.alloc_len none) [[3, 6]] ∧
    [0, 0] = EvaluateSurrogate.sum_columns (cMulti.alloc_len none) [[0, 0]] :=
  mode_sum_matches_column_sum cMulti 1 none none none none none none "dimensionless"
    (some (.lst [2])) (some [2]) false [0, 1] [3, 6] [0, 0] [(2, 2)] [0, 1]
    [[3, 6]] [[0, 0]] (by with_unfolding_all decide) (by with_unfolding_all decide)

/-- Counterexample to C7 as stated: when every requested mode is absent from
the model (here `ell=[5], m=[5]` against a model holding only `(2,2)`), the
multi-mode evaluation raises (`t_mode` is never assigned before the final
return references it) instead of returning an all-zero waveform — so the
absence of a requested mode can raise an error. -/
theorem absent_modes_only_call_errors_cex :
    EvaluateSurrogate.generate_mode_eval_list cMulti (some (.lst [5])) (some [5]) false =
      .ok [(5, 5)] ∧
    EvaluateSurrogate.all_model_modes cMulti true = .ok [(2, 2), (2, -2)] ∧
    cMulti.call 1 none none none none none none none "dimensionless"
      (some (.lst [5])) (some [5]) true false =
      .error "t_mode referenced before assignment" :=
  ⟨by decide, by decide, by with_unfolding_all decide⟩

lemma getD_map_col (L : List (ℤ × ℤ)) (colOf : (ℤ × ℤ) → List ℚ) (i : ℕ)
    (hi : i < L.length) :
    (L.map colOf).getD i [] = colOf (L.getD i (0, 0)) := by
  rw [List.getD_eq_getElem _ _ (by simpa using hi), List.getElem_map,
      List.getD_eq_getElem L (0, 0) hi]

/-- C7 (amended): in a multi-mode evaluation that returns (so at least one
requested mode is modelled), a requested mode not present in the model
contributes an all-zero column to the `mode_sum=False` output and raises no
error; but when no requested mode is present at all, the evaluation fails with
an unbound `t_mode` rather than returning zeros. -/
theorem absent_mode_zero_column (mm : EvaluateSurrogate) (q : ℚ)
    (M dist theta phi f_low : Option ℚ) (samples : Option (List ℚ)) (su : String)
    (ell : Option EllArg) (m : Option (List ℤ)) (fake : Bool)
    (modes : List (ℤ × ℤ)) (t2 : List ℚ) (ch cc : List (List ℚ))
    (A : List (ℤ × ℤ))
    (h2 : mm.call q M dist theta phi none f_low samples su ell m false fake =
      .ok (.perMode modes t2 ch cc))
    (hA : mm.all_model_modes true = .ok A)
    (i : ℕ) (hi : i < modes.length)
    (habs : modes.getD i (0, 0) ∉ A) :
    ch.getD i [] = List.replicate (mm.alloc_len samples) 0 ∧
    cc.getD i [] = List.replicate (mm.alloc_len samples) 0 := by
  unfold EvaluateSurrogate.call at h2
  dsimp only at h2
  cases hg : EvaluateSurrogate.generate_mode_eval_list mm ell m fake with
  | error e => rw [hg] at h2; cases h2
  | ok modes0 =>
  rw [hg] at h2
  dsimp only at h2
  rw [hA] at h2
  dsimp only at h2
  rw [if_neg (by decide : ¬ ((false : Bool) = true))] at h2
  rw [if_neg (by decide : ¬ ((false : Bool) = true))] at h2
  set n := mm.alloc_len samples with hn
  set a : EvaluateSurrogate.EvalArgs :=
    ⟨q, M, dist, none, f_low, samples, su, theta, phi⟩ with ha
  cases hcl : EvaluateSurrogate.call_loop_cols mm a n A
      (EvaluateSurrogate.sort_mode_list modes0) none [] [] with
  | error e => rw [hcl] at h2; cases h2
  | ok rc =>
  obtain ⟨tc, chc, ccc⟩ := rc
  rw [hcl] at h2
  cases tc with
  | none => dsimp only at h2; cases h2
  | some tcval =>
  dsimp only at h2
  simp only [Except.ok.injEq, CallOutput.perMode.injEq] at h2
  obtain ⟨hmodes, -, rfl, rfl⟩ := h2
  obtain ⟨hch, hcc, -⟩ := EvaluateSurrogate.cols_loop_spec mm a n A
    (EvaluateSurrogate.sort_mode_list modes0) none [] [] _ _ _ hcl
  rw [List.nil_append] at hch hcc
  subst hmodes
  constructor
  · rw [hch, getD_map_col _ _ i hi]
    unfold EvaluateSurrogate.colOfHp
    rw [if_neg habs]
  · rw [hcc, getD_map_col _ _ i hi]
    unfold EvaluateSurrogate.colOfHc
    rw [if_neg habs]

/-- Witness for C7 (amended): requesting `[(2,2),(5,2)]` from `cMulti` (which
models only `(2,2)`) succeeds, and the `(5,2)` column is all zeros. -/
theorem absent_mode_zero_column_witness :
    ([[3, 6], [0, 0]] : List (List ℚ)).getD 1 [] =
      List.replicate (cMulti.alloc_len none) 0 ∧
    ([[0, 0], [0, 0]] : List (List ℚ)).getD 1 [] =
      List.replicate (cMulti.alloc_len none) 0 :=
  absent_mode_zero_column cMulti 1 none none none none none none "dimensionless"
    (some (.lst [2, 5])) (some [2]) false [(2, 2), (5, 2)] [0, 1]
    [[3, 6], [0, 0]] [[0, 0], [0, 0]] [(2, 2), (2, -2)]
    (by with_unfolding_all decide) (by decide) 1 (by decide) (by decide)

/-- C10: the closure built by `h_sphere_builder` applies spherical-harmonic
projection and returns a single summed pair only when both `theta` and `phi`
are given; with `theta` given but `phi` absent (or vice versa) it returns the
separated per-mode matrices — unlike the direct multi-mode path, whose
`evaluate_on_sphere` defaults `phi` to `0` and still projects when only
`theta` is given. -/
theorem sphere_closure_angle_branching (mm : EvaluateSurrogate)
    (modes : List (ℤ × ℤ)) (hpS hcS : (ℤ × ℤ) → ℚ → ℚ) (tmin tmax : ℚ)
    (times : List ℚ) (th ph : ℚ) (hne : times ≠ [])
    (hwin : ¬(EvaluateSurrogate.listMin times < tmin ∨
      EvaluateSurrogate.listMax times > tmax)) :
    (∃ mats, EvaluateSurrogate.h_sphere mm modes hpS hcS tmin tmax times
      (some th) none none none = .ok (.inr mats)) ∧
    (∃ mats, EvaluateSurrogate.h_sphere mm modes hpS hcS tmin tmax times
      none (some ph) none none = .ok (.inr mats)) ∧
    (∃ hpl hcl, EvaluateSurrogate.h_sphere mm modes hpS hcS tmin tmax times
      (some th) (some ph) none none = .ok (.inl (hpl, hcl))) ∧
    (∀ l m2 hp hc, mm.evaluate_on_sphere l m2 (some th) none hp hc =
      mm.evaluate_on_sphere l m2 (some th) (some 0) hp hc) := by
  unfold EvaluateSurrogate.h_sphere
  simp only [if_neg hne, if_neg hwin]
  exact ⟨⟨_, rfl⟩, ⟨_, rfl⟩, ⟨_, _, rfl⟩, fun l m2 hp hc => rfl⟩

/-- Witness for C10 on concrete data: a one-mode closure over the single-point
grid `[0]` returns matrices when `phi` is absent and a summed pair when both
angles are given. -/
theorem sphere_closure_angle_branching_witness :
    (∃ mats, EvaluateSurrogate.h_sphere cMulti [(2, 2)] (fun _ _ => 0) (fun _ _ => 0)
      0 0 [0] (some 1) none none none = .ok (.inr mats)) ∧
    (∃ mats, EvaluateSurrogate.h_sphere cMulti [(2, 2)] (fun _ _ => 0) (fun _ _ => 0)
      0 0 [0] none (some 1) none none = .ok (.inr mats)) ∧
    (∃ hpl hcl, EvaluateSurrogate.h_sphere cMulti [(2, 2)] (fun _ _ => 0) (fun _ _ => 0)
      0 0 [0] (some 1) (some 1) none none = .ok (.inl (hpl, hcl))) ∧
    (∀ l m2 hp hc, cMulti.evaluate_on_sphere l m2 (some 1) none hp hc =
      cMulti.evaluate_on_sphere l m2 (some 1) (some 0) hp hc) :=
  sphere_closure_angle_branching cMulti [(2, 2)] (fun _ _ => 0) (fun _ _ => 0)
    0 0 [0] 1 1 (by decide) (by with_unfolding_all decide)
